import Mathlib

/-!
Verification of the BitSafe tester ADC acquisition core (src/adc.c).

Shallow embedding of the ADC sample-acquisition engine:

* `insertSample`      — `static void insertSample(uint32_t sample)` (adc.c:99-112)
* `_ADCHandler`       — the ADC batch-completion interrupt handler (adc.c:117-147)
* `beginFillingADCBuffer` — the batch (re)start operation (adc.c:159-168)

The mutable global state of the driver (`adc_sample_buffer`,
`sample_buffer_current_index`, `sample_buffer_full`, the Timer3 run bit
`T3CONbits.ON`, and the ADC interrupt flag `IFS1bits.AD1IF`) is modelled as an
explicit record `MachineState`, and the three operations as state
transformers.  The buffer capacity `SAMPLE_BUFFER_SIZE` (defined in adc.h,
outside this repository's sources) is carried as a parameter `N`.

Hardware inputs to the interrupt handler — the `AD1CON2bits.BUFS` bank bit and
the sixteen result registers `ADC1BUF0` … `ADC1BUFF` — are passed as explicit
arguments (`bufs : Bool`, `adc1buf : Nat → Nat`, where `adc1buf k` is the value
of register `ADC1BUFk`).

Machine integers: `sample` is a C `uint32_t`; since the very first statement of
`insertSample` masks it with `0x3ff`, modelling it as an unbounded `Nat` is
faithful (the mask makes any bits above bit 9 irrelevant, so 32-bit wraparound
can never be observed).  The store `(uint16_t)sample` into the `uint16_t`
array is the identity on the masked value (≤ 1023 < 2^16).
-/

/-- The driver's mutable state: the three file-scope globals of adc.c plus the
two hardware bits the core reads/writes (Timer3 ON bit and the AD1IF interrupt
flag).  `sample_buffer_full` is a C `int` used as a boolean (0 / 1), modelled
as `Bool`. -/
structure MachineState where
  adc_sample_buffer : List Nat
  sample_buffer_current_index : Nat
  sample_buffer_full : Bool
  timer3_on : Bool
  ad1if : Bool
deriving Repr, DecidableEq

/-- Embedding of `insertSample` (adc.c:99-112):

```c
sample &= 0x3ff;
if (sample_buffer_current_index >= SAMPLE_BUFFER_SIZE)
{
    T3CONbits.ON = 0; // turn timer off
    sample_buffer_full = 1;
}
else
{
    adc_sample_buffer[sample_buffer_current_index] = (uint16_t)sample;
    sample_buffer_current_index++;
}
``` -/
def insertSample (N : Nat) (sample : Nat) (s : MachineState) : MachineState :=
  let sample := sample &&& 0x3ff
  if s.sample_buffer_current_index ≥ N then
    { s with timer3_on := false, sample_buffer_full := true }
  else
    { s with
        adc_sample_buffer :=
          s.adc_sample_buffer.set s.sample_buffer_current_index sample,
        sample_buffer_current_index := s.sample_buffer_current_index + 1 }

/-- Embedding of the interrupt handler `_ADCHandler` (adc.c:117-147).
`bufs` is `AD1CON2bits.BUFS` (false ⟺ 0 ⟺ "ADC is currently filling
buffers 0 - 7"); `adc1buf k` is the hardware result register `ADC1BUFk`.
The eight `insertSample` calls are sequential, in the textual order of the
source; the final update models `IFS1bits.AD1IF = 0`. -/
def _ADCHandler (N : Nat) (bufs : Bool) (adc1buf : Nat → Nat)
    (s : MachineState) : MachineState :=
  if bufs = false then
    -- ADC is currently filling buffers 0 - 7.
    let s := insertSample N (adc1buf 8) s
    let s := insertSample N (adc1buf 9) s
    let s := insertSample N (adc1buf 10) s
    let s := insertSample N (adc1buf 11) s
    let s := insertSample N (adc1buf 12) s
    let s := insertSample N (adc1buf 13) s
    let s := insertSample N (adc1buf 14) s
    let s := insertSample N (adc1buf 15) s
    { s with ad1if := false }
  else
    -- ADC is currently filling buffers 8 - 15.
    let s := insertSample N (adc1buf 0) s
    let s := insertSample N (adc1buf 1) s
    let s := insertSample N (adc1buf 2) s
    let s := insertSample N (adc1buf 3) s
    let s := insertSample N (adc1buf 4) s
    let s := insertSample N (adc1buf 5) s
    let s := insertSample N (adc1buf 6) s
    let s := insertSample N (adc1buf 7) s
    { s with ad1if := false }

/-- Embedding of `beginFillingADCBuffer` (adc.c:159-168).  The body runs with
interrupts disabled (`disableInterrupts` / `restoreInterrupts`), so the
multi-field reset is atomic and is modelled as a single state update:

```c
sample_buffer_current_index = 0;
sample_buffer_full = 0;
T3CONbits.ON = 1; // turn timer on
``` -/
def beginFillingADCBuffer (s : MachineState) : MachineState :=
  { s with
      sample_buffer_current_index := 0,
      sample_buffer_full := false,
      timer3_on := true }

/-- The state right after C start-up and `initADC()`: the file-scope globals
are zero-initialised (`adc_sample_buffer` all zeros, index 0, full = 0), and
`initADC` leaves Timer3 off (`T3CONbits.ON = 0` until `beginFillingADCBuffer`)
and clears `IFS1bits.AD1IF`. -/
def initialADCState (N : Nat) : MachineState :=
  { adc_sample_buffer := List.replicate N 0,
    sample_buffer_current_index := 0,
    sample_buffer_full := false,
    timer3_on := false,
    ad1if := false }

/-- Events performed by one invocation of `_ADCHandler`, used to state the
ordering requirement "clear the interrupt flag only after all eight result
registers have been read".  `readInsert k` is the statement
`insertSample(ADC1BUFk)` (a read of result register `ADC1BUFk` immediately fed
to `insertSample`); `clearFlag` is `IFS1bits.AD1IF = 0`. -/
inductive ADCEvent where
  | readInsert (slot : Nat)
  | clearFlag
deriving Repr, DecidableEq

/-- The statements of `_ADCHandler`'s body, in textual (execution) order, as
events (adc.c:119-146). -/
def adcHandlerEvents (bufs : Bool) : List ADCEvent :=
  if bufs = false then
    [ADCEvent.readInsert 8, ADCEvent.readInsert 9, ADCEvent.readInsert 10,
     ADCEvent.readInsert 11, ADCEvent.readInsert 12, ADCEvent.readInsert 13,
     ADCEvent.readInsert 14, ADCEvent.readInsert 15, ADCEvent.clearFlag]
  else
    [ADCEvent.readInsert 0, ADCEvent.readInsert 1, ADCEvent.readInsert 2,
     ADCEvent.readInsert 3, ADCEvent.readInsert 4, ADCEvent.readInsert 5,
     ADCEvent.readInsert 6, ADCEvent.readInsert 7, ADCEvent.clearFlag]

/-- Effect of one handler event on the machine state. -/
def replayEvent (N : Nat) (adc1buf : Nat → Nat) (s : MachineState) :
    ADCEvent → MachineState
  | ADCEvent.readInsert slot => insertSample N (adc1buf slot) s
  | ADCEvent.clearFlag => { s with ad1if := false }

/-- Replay a list of handler events. -/
def replayEvents (N : Nat) (adc1buf : Nat → Nat) (evs : List ADCEvent)
    (s : MachineState) : MachineState :=
  evs.foldl (replayEvent N adc1buf) s

/-- The result-register slots read by a list of handler events, in order. -/
def drainedSlots (evs : List ADCEvent) : List Nat :=
  evs.filterMap (fun e =>
    match e with
    | ADCEvent.readInsert k => some k
    | ADCEvent.clearFlag => none)

/-- Sequentially insert a list of values (helper for reasoning about the
eight consecutive `insertSample` calls of the handler). -/
def insertSamples (N : Nat) (vs : List Nat) (s : MachineState) : MachineState :=
  vs.foldl (fun st v => insertSample N v st) s

/-- States reachable from the post-`initADC` state by any interleaving of the
driver's operations (with arbitrary hardware inputs). -/
inductive Reachable (N : Nat) : MachineState → Prop where
  | init : Reachable N (initialADCState N)
  | insert (v : Nat) {s : MachineState} :
      Reachable N s → Reachable N (insertSample N v s)
  | handler (bufs : Bool) (adc1buf : Nat → Nat) {s : MachineState} :
      Reachable N s → Reachable N (_ADCHandler N bufs adc1buf s)
  | start {s : MachineState} :
      Reachable N s → Reachable N (beginFillingADCBuffer s)

/-! Basic lemmas about the embedded operations. -/

/-- The in-bounds branch of `insertSample`. -/
lemma insertSample_of_lt (N v : Nat) (s : MachineState)
    (h : s.sample_buffer_current_index < N) :
    insertSample N v s =
      { s with
          adc_sample_buffer :=
            s.adc_sample_buffer.set s.sample_buffer_current_index (v &&& 0x3ff),
          sample_buffer_current_index := s.sample_buffer_current_index + 1 } := by
  unfold insertSample
  rw [if_neg (by omega)]

/-- The buffer-already-full branch of `insertSample`. -/
lemma insertSample_of_ge (N v : Nat) (s : MachineState)
    (h : N ≤ s.sample_buffer_current_index) :
    insertSample N v s =
      { s with timer3_on := false, sample_buffer_full := true } := by
  unfold insertSample
  rw [if_pos h]

lemma insertSamples_nil (N : Nat) (s : MachineState) :
    insertSamples N [] s = s := rfl

lemma insertSamples_cons (N v : Nat) (vs : List Nat) (s : MachineState) :
    insertSamples N (v :: vs) s = insertSamples N vs (insertSample N v s) := rfl

lemma insertSamples_append (N : Nat) (vs ws : List Nat) (s : MachineState) :
    insertSamples N (vs ++ ws) s = insertSamples N ws (insertSamples N vs s) := by
  simp [insertSamples, List.foldl_append]

/-- Once the write index has reached capacity, any non-empty run of
`insertSample` calls only (idempotently) sets `sample_buffer_full` and turns
the timer off; buffer and index are untouched. -/
lemma insertSamples_of_ge (N : Nat) (vs : List Nat) (s : MachineState)
    (h : N ≤ s.sample_buffer_current_index) (hne : vs ≠ []) :
    insertSamples N vs s =
      { s with timer3_on := false, sample_buffer_full := true } := by
  induction vs generalizing s with
  | nil => exact absurd rfl hne
  | cons v vs ih =>
    rw [insertSamples_cons, insertSample_of_ge N v s h]
    cases vs with
    | nil => rfl
    | cons w ws =>
      have hsat := ih { s with timer3_on := false, sample_buffer_full := true }
        h (List.cons_ne_nil w ws)
      rw [hsat]

/-- Decomposition: `_ADCHandler` sequentially inserts the values of the drained result
registers (in drain order), then clear the interrupt flag. -/
lemma _ADCHandler_eq_insertSamples (N : Nat) (bufs : Bool)
    (adc1buf : Nat → Nat) (s : MachineState) :
    _ADCHandler N bufs adc1buf s =
      { insertSamples N ((drainedSlots (adcHandlerEvents bufs)).map adc1buf) s
          with ad1if := false } := by
  cases bufs <;> rfl

/-- Replaying the handler's event list is exactly running the handler. -/
lemma replayEvents_adcHandlerEvents (N : Nat) (bufs : Bool)
    (adc1buf : Nat → Nat) (s : MachineState) :
    replayEvents N adc1buf (adcHandlerEvents bufs) s =
      _ADCHandler N bufs adc1buf s := by
  cases bufs <;> rfl

/-- The 10-bit mask is a mod-1024 reduction. -/
lemma and_0x3ff_eq_mod (v : Nat) : v &&& 0x3ff = v % 1024 := by
  have h := Nat.and_pow_two_sub_one_eq_mod v 10
  simpa using h

/-- The function `insertSample` neither reads nor writes the interrupt flag. -/
lemma insertSample_ad1if (N v : Nat) (s : MachineState) (b : Bool) :
    insertSample N v { s with ad1if := b } =
      { insertSample N v s with ad1if := b } := by
  simp only [insertSample]
  split <;> rfl

lemma insertSamples_ad1if (N : Nat) (vs : List Nat) (s : MachineState)
    (b : Bool) :
    insertSamples N vs { s with ad1if := b } =
      { insertSamples N vs s with ad1if := b } := by
  induction vs generalizing s with
  | nil => rfl
  | cons v vs ih =>
    rw [insertSamples_cons, insertSamples_cons, insertSample_ad1if, ih]

/-- Full characterisation of a run of `insertSample` calls that stays in
bounds: the index advances by the number of values, the flags are untouched,
and the buffer is overwritten with the masked values exactly on the written
window. -/
lemma insertSamples_inbounds (N : Nat) (vs : List Nat) (s : MachineState)
    (h : s.sample_buffer_current_index + vs.length ≤ N)
    (hlen : s.adc_sample_buffer.length = N) :
    (insertSamples N vs s).sample_buffer_current_index =
        s.sample_buffer_current_index + vs.length ∧
    (insertSamples N vs s).sample_buffer_full = s.sample_buffer_full ∧
    (insertSamples N vs s).timer3_on = s.timer3_on ∧
    (insertSamples N vs s).ad1if = s.ad1if ∧
    (insertSamples N vs s).adc_sample_buffer.length = N ∧
    (∀ j : Nat, (insertSamples N vs s).adc_sample_buffer[j]? =
      if s.sample_buffer_current_index ≤ j ∧
          j < s.sample_buffer_current_index + vs.length then
        (vs[j - s.sample_buffer_current_index]?).map (fun v => v &&& 0x3ff)
      else s.adc_sample_buffer[j]?) := by
  induction vs generalizing s with
  | nil =>
    refine ⟨rfl, rfl, rfl, rfl, hlen, ?_⟩
    intro j
    rw [insertSamples_nil, if_neg (by simp)]
  | cons v vs ih =>
    have hlt : s.sample_buffer_current_index < N := by
      simp only [List.length_cons] at h; omega
    rw [insertSamples_cons, insertSample_of_lt N v s hlt]
    obtain ⟨h1, h2, h3, h4, h5, h6⟩ :=
      ih { s with
             adc_sample_buffer :=
               s.adc_sample_buffer.set s.sample_buffer_current_index (v &&& 0x3ff),
             sample_buffer_current_index := s.sample_buffer_current_index + 1 }
        (by simp only [List.length_cons] at h
            show s.sample_buffer_current_index + 1 + vs.length ≤ N
            omega)
        (by show (s.adc_sample_buffer.set _ _).length = N
            simpa using hlen)
    refine ⟨?_, h2, h3, h4, h5, ?_⟩
    · rw [h1]
      show s.sample_buffer_current_index + 1 + vs.length =
        s.sample_buffer_current_index + (v :: vs).length
      simp only [List.length_cons]
      omega
    · intro j
      have h6j : (insertSamples N vs
            { s with
                adc_sample_buffer :=
                  s.adc_sample_buffer.set s.sample_buffer_current_index (v &&& 0x3ff),
                sample_buffer_current_index :=
                  s.sample_buffer_current_index + 1 }).adc_sample_buffer[j]? =
          if s.sample_buffer_current_index + 1 ≤ j ∧
              j < s.sample_buffer_current_index + 1 + vs.length then
            (vs[j - (s.sample_buffer_current_index + 1)]?).map (fun v => v &&& 0x3ff)
          else
            (s.adc_sample_buffer.set s.sample_buffer_current_index (v &&& 0x3ff))[j]? :=
        h6 j
      rw [h6j]
      rcases Nat.lt_trichotomy j s.sample_buffer_current_index with hj | hj | hj
      · rw [if_neg (by omega),
          if_neg (by simp only [List.length_cons]; omega)]
        exact List.getElem?_set_ne (by omega)
      · subst hj
        rw [if_neg (by omega),
          if_pos (by simp only [List.length_cons]; exact ⟨Nat.le_refl _, by omega⟩)]
        rw [List.getElem?_set_self (by omega)]
        simp
      · by_cases hw : j < s.sample_buffer_current_index + 1 + vs.length
        · rw [if_pos ⟨by omega, hw⟩,
            if_pos (by simp only [List.length_cons]; omega)]
          have hsub : j - s.sample_buffer_current_index =
              (j - (s.sample_buffer_current_index + 1)) + 1 := by omega
          rw [hsub, List.getElem?_cons_succ]
        · rw [if_neg (by omega),
            if_neg (by simp only [List.length_cons]; omega)]
          exact List.getElem?_set_ne (by omega)

/-- The function `insertSample` never clears an already-set `sample_buffer_full`. -/
lemma insertSample_full_mono (N v : Nat) (t : MachineState)
    (h : t.sample_buffer_full = true) :
    (insertSample N v t).sample_buffer_full = true := by
  by_cases hc : N ≤ t.sample_buffer_current_index
  · rw [insertSample_of_ge N v t hc]
  · rw [insertSample_of_lt N v t (by omega)]
    exact h

lemma insertSamples_full_mono (N : Nat) (vs : List Nat) (t : MachineState)
    (h : t.sample_buffer_full = true) :
    (insertSamples N vs t).sample_buffer_full = true := by
  induction vs generalizing t with
  | nil => exact h
  | cons v vs ih =>
    rw [insertSamples_cons]
    exact ih _ (insertSample_full_mono N v t h)

/-- The values drained by one handler invocation: always exactly eight. -/
lemma drained_length (bufs : Bool) (f : Nat → Nat) :
    ((drainedSlots (adcHandlerEvents bufs)).map f).length = 8 := by
  cases bufs <;> rfl

lemma drained_ne_nil (bufs : Bool) (f : Nat → Nat) :
    (drainedSlots (adcHandlerEvents bufs)).map f ≠ [] := by
  cases bufs <;> simp [adcHandlerEvents, drainedSlots]

/-! Claim theorems. -/

/-- C1: `insertSample` first masks its 32-bit argument to 10 bits; then, if
`write_index < N`, it stores the masked value at position `write_index` and
increments `write_index` by exactly one (leaving `full`, the timer and the
interrupt flag untouched); otherwise it sets `full`, disarms the Trigger
Source (Timer3 off) and performs no store into the sample buffer. -/
theorem insertSample_contract (N v : Nat) (s : MachineState) :
    (s.sample_buffer_current_index < N →
      insertSample N v s =
        { s with
            adc_sample_buffer :=
              s.adc_sample_buffer.set s.sample_buffer_current_index (v &&& 0x3ff),
            sample_buffer_current_index := s.sample_buffer_current_index + 1 }) ∧
    (N ≤ s.sample_buffer_current_index →
      insertSample N v s =
        { s with timer3_on := false, sample_buffer_full := true }) :=
  ⟨fun h => insertSample_of_lt N v s h, fun h => insertSample_of_ge N v s h⟩

/-- Witness for C1 at N = 2: one in-bounds insert from the fresh state, and
one insert attempted at `write_index = 2 = N`. -/
theorem insertSample_contract_witness :
    (insertSample 2 5 (initialADCState 2) =
      { initialADCState 2 with
          adc_sample_buffer := (List.replicate 2 0).set 0 (5 &&& 0x3ff),
          sample_buffer_current_index := 1 }) ∧
    (insertSample 2 5
        { initialADCState 2 with sample_buffer_current_index := 2 } =
      { { initialADCState 2 with sample_buffer_current_index := 2 } with
          timer3_on := false, sample_buffer_full := true }) :=
  ⟨(insertSample_contract 2 5 (initialADCState 2)).1 (by decide),
   (insertSample_contract 2 5
      { initialADCState 2 with sample_buffer_current_index := 2 }).2 (by decide)⟩

/-- C2: one invocation of `_ADCHandler` drains the completed bank — slots
8…15 in increasing slot order when the hardware bank bit says slots 0-7 are
currently being filled, and slots 0…7 otherwise; it performs exactly one
`insertSample` per drained register (replaying the handler's event list is
exactly running the handler); and the batch-completion interrupt flag is
cleared exactly once, as the very last event, i.e. only after all eight
results have been read. -/
theorem adcHandler_drain_order (N : Nat) (bufs : Bool) (adc1buf : Nat → Nat)
    (s : MachineState) :
    drainedSlots (adcHandlerEvents bufs) =
      (if bufs = false then [8, 9, 10, 11, 12, 13, 14, 15]
       else [0, 1, 2, 3, 4, 5, 6, 7]) ∧
    (adcHandlerEvents bufs).getLast? = some ADCEvent.clearFlag ∧
    (adcHandlerEvents bufs).count ADCEvent.clearFlag = 1 ∧
    (adcHandlerEvents bufs).length = 9 ∧
    replayEvents N adc1buf (adcHandlerEvents bufs) s =
      _ADCHandler N bufs adc1buf s := by
  refine ⟨?_, ?_, ?_, ?_, replayEvents_adcHandlerEvents N bufs adc1buf s⟩ <;>
    cases bufs <;> rfl

/-- C6: whatever the prior state (any write index, full or not, trigger armed
or not), immediately after `beginFillingADCBuffer` the write index is 0,
`full` is false and the Trigger Source (Timer3) is armed; two starts from any
two prior states agree on all of the control state. -/
theorem beginFillingADCBuffer_resets (s t : MachineState) :
    (beginFillingADCBuffer s).sample_buffer_current_index = 0 ∧
    (beginFillingADCBuffer s).sample_buffer_full = false ∧
    (beginFillingADCBuffer s).timer3_on = true ∧
    (beginFillingADCBuffer s).sample_buffer_current_index =
      (beginFillingADCBuffer t).sample_buffer_current_index ∧
    (beginFillingADCBuffer s).sample_buffer_full =
      (beginFillingADCBuffer t).sample_buffer_full ∧
    (beginFillingADCBuffer s).timer3_on = (beginFillingADCBuffer t).timer3_on :=
  ⟨rfl, rfl, rfl, rfl, rfl, rfl⟩

/-- C9: `beginFillingADCBuffer` writes only `sample_buffer_current_index`,
`sample_buffer_full` and the timer run bit; every entry of
`adc_sample_buffer` (and the interrupt flag) is left unchanged, so the
previous batch's samples remain readable after a restart. -/
theorem beginFillingADCBuffer_frame (s : MachineState) :
    (beginFillingADCBuffer s).adc_sample_buffer = s.adc_sample_buffer ∧
    (beginFillingADCBuffer s).ad1if = s.ad1if :=
  ⟨rfl, rfl⟩

/-- C10: an `insertSample` performed while the buffer is already full
(`write_index ≥ N`) leaves buffer contents and index unchanged and only
(idempotently) re-sets `full` and re-disarms the timer; consequently a whole
handler invocation run in that situation corrupts nothing — buffer and index
are untouched, `full` stays set, the timer is off — and it still clears the
interrupt flag (after all eight reads, per the event-order theorem). -/
theorem insert_after_full_noop (N v : Nat) (bufs : Bool)
    (adc1buf : Nat → Nat) (s : MachineState)
    (h : N ≤ s.sample_buffer_current_index) :
    insertSample N v s =
      { s with timer3_on := false, sample_buffer_full := true } ∧
    (_ADCHandler N bufs adc1buf s).adc_sample_buffer = s.adc_sample_buffer ∧
    (_ADCHandler N bufs adc1buf s).sample_buffer_current_index =
      s.sample_buffer_current_index ∧
    (_ADCHandler N bufs adc1buf s).sample_buffer_full = true ∧
    (_ADCHandler N bufs adc1buf s).timer3_on = false ∧
    (_ADCHandler N bufs adc1buf s).ad1if = false := by
  have hh := _ADCHandler_eq_insertSamples N bufs adc1buf s
  have hsat := insertSamples_of_ge N
    ((drainedSlots (adcHandlerEvents bufs)).map adc1buf) s h
    (drained_ne_nil bufs adc1buf)
  rw [hh, hsat]
  exact ⟨insertSample_of_ge N v s h, rfl, rfl, rfl, rfl, rfl⟩

/-- Witness for C10 at N = 2 with the write index already at capacity. -/
theorem insert_after_full_noop_witness :
    (insertSample 2 7 { initialADCState 2 with sample_buffer_current_index := 2 } =
      { { initialADCState 2 with sample_buffer_current_index := 2 } with
          timer3_on := false, sample_buffer_full := true }) ∧
    (_ADCHandler 2 false (fun k => k)
        { initialADCState 2 with sample_buffer_current_index := 2 }).adc_sample_buffer =
      ({ initialADCState 2 with sample_buffer_current_index := 2 } :
        MachineState).adc_sample_buffer ∧
    (_ADCHandler 2 false (fun k => k)
        { initialADCState 2 with sample_buffer_current_index := 2 }).sample_buffer_current_index =
      ({ initialADCState 2 with sample_buffer_current_index := 2 } :
        MachineState).sample_buffer_current_index ∧
    (_ADCHandler 2 false (fun k => k)
        { initialADCState 2 with sample_buffer_current_index := 2 }).sample_buffer_full = true ∧
    (_ADCHandler 2 false (fun k => k)
        { initialADCState 2 with sample_buffer_current_index := 2 }).timer3_on = false ∧
    (_ADCHandler 2 false (fun k => k)
        { initialADCState 2 with sample_buffer_current_index := 2 }).ad1if = false :=
  insert_after_full_noop 2 7 false (fun k => k)
    { initialADCState 2 with sample_buffer_current_index := 2 } (by decide)

/-- After a start, `full` is set iff strictly more than `N` inserts have been
performed: the flag is set lazily, by the first insert that finds
`write_index` already at capacity, not by the insert that brings it there. -/
lemma insertSamples_full_char (N : Nat) (vs : List Nat) (s : MachineState)
    (hlen : s.adc_sample_buffer.length = N) :
    (insertSamples N vs (beginFillingADCBuffer s)).sample_buffer_full =
      decide (N < vs.length) := by
  by_cases hle : vs.length ≤ N
  · obtain ⟨_, h2, _, _, _, _⟩ :=
      insertSamples_inbounds N vs (beginFillingADCBuffer s)
        (by show 0 + vs.length ≤ N; omega) hlen
    rw [h2]
    have hnot : ¬ (N < vs.length) := by omega
    simp [beginFillingADCBuffer, hnot]
  · obtain ⟨h1, _, _, _, _, _⟩ :=
      insertSamples_inbounds N (vs.take N) (beginFillingADCBuffer s)
        (by show 0 + (vs.take N).length ≤ N
            simp [List.length_take]) hlen
    have hvs : insertSamples N vs (beginFillingADCBuffer s) =
        insertSamples N (vs.drop N)
          (insertSamples N (vs.take N) (beginFillingADCBuffer s)) := by
      rw [← insertSamples_append, List.take_append_drop]
    rw [hvs, insertSamples_of_ge N (vs.drop N) _
      (by rw [h1]; simp [List.length_take]; omega)
      (by simp [List.drop_eq_nil_iff]; omega)]
    have hlt : N < vs.length := by omega
    simp [hlt]

/-- C3 counterexample: with N = 1, after a fresh start the single insert that
makes `write_index` reach N = 1 does not set `full` — the flag is still false
(and the trigger still armed) right after that insert, contradicting the
claim that the transition happens as a consequence of the insert that makes
`write_index` equal to N. -/
theorem full_transition_counterexample :
    (insertSample 1 5 (beginFillingADCBuffer
        (initialADCState 1))).sample_buffer_current_index = 1 ∧
    (insertSample 1 5 (beginFillingADCBuffer
        (initialADCState 1))).sample_buffer_full = false ∧
    (insertSample 1 5 (beginFillingADCBuffer
        (initialADCState 1))).timer3_on = true := by
  decide

/-- C3 (amended): in every batch (a `beginFillingADCBuffer` followed by a
sequence of inserts) `full` is false while at most N inserts have been
performed — in particular it is still false right after the insert that makes
`write_index` reach N — and is true as soon as more than N inserts have been
performed; so it transitions false→true exactly once per batch, at the first
insert attempted after `write_index` has reached N.  Inserts never clear an
already-set `full`; only a new start operation clears it. -/
theorem full_transition_lazy (N : Nat) (vs : List Nat) (s t : MachineState)
    (hlen : s.adc_sample_buffer.length = N) :
    (insertSamples N vs (beginFillingADCBuffer s)).sample_buffer_full =
      decide (N < vs.length) ∧
    (beginFillingADCBuffer t).sample_buffer_full = false ∧
    (t.sample_buffer_full = true →
      ∀ v, (insertSample N v t).sample_buffer_full = true) :=
  ⟨insertSamples_full_char N vs s hlen, rfl,
   fun h v => insertSample_full_mono N v t h⟩

/-- Witness for C3 (amended) at N = 1 with two inserts: the first insert
(filling the buffer) leaves `full` false, the second one sets it. -/
theorem full_transition_lazy_witness :
    ((insertSamples 1 [3] (beginFillingADCBuffer
        (initialADCState 1))).sample_buffer_full =
      decide ((1 : Nat) < ([3] : List Nat).length)) ∧
    ((insertSamples 1 [3, 4] (beginFillingADCBuffer
        (initialADCState 1))).sample_buffer_full =
      decide ((1 : Nat) < ([3, 4] : List Nat).length)) ∧
    (beginFillingADCBuffer (initialADCState 1)).sample_buffer_full = false :=
  ⟨(full_transition_lazy 1 [3] (initialADCState 1) (initialADCState 1)
      (by decide)).1,
   (full_transition_lazy 1 [3, 4] (initialADCState 1) (initialADCState 1)
      (by decide)).1,
   (full_transition_lazy 1 [3] (initialADCState 1) (initialADCState 1)
      (by decide)).2.1⟩

/-- One insert preserves the structural invariant `write_index ≤ N` and
`|buffer| = N`. -/
lemma insertSample_inv (N v : Nat) (s : MachineState)
    (h1 : s.sample_buffer_current_index ≤ N)
    (h2 : s.adc_sample_buffer.length = N) :
    (insertSample N v s).sample_buffer_current_index ≤ N ∧
    (insertSample N v s).adc_sample_buffer.length = N := by
  by_cases hc : N ≤ s.sample_buffer_current_index
  · rw [insertSample_of_ge N v s hc]; exact ⟨h1, h2⟩
  · rw [insertSample_of_lt N v s (by omega)]
    refine ⟨?_, ?_⟩
    · show s.sample_buffer_current_index + 1 ≤ N
      omega
    · show (s.adc_sample_buffer.set _ _).length = N
      simpa using h2

lemma insertSamples_inv (N : Nat) (vs : List Nat) (s : MachineState)
    (h1 : s.sample_buffer_current_index ≤ N)
    (h2 : s.adc_sample_buffer.length = N) :
    (insertSamples N vs s).sample_buffer_current_index ≤ N ∧
    (insertSamples N vs s).adc_sample_buffer.length = N := by
  induction vs generalizing s with
  | nil => exact ⟨h1, h2⟩
  | cons v vs ih =>
    rw [insertSamples_cons]
    obtain ⟨g1, g2⟩ := insertSample_inv N v s h1 h2
    exact ih _ g1 g2

/-- Structural invariant of every reachable state. -/
lemma reachable_inv (N : Nat) (s : MachineState) (h : Reachable N s) :
    s.sample_buffer_current_index ≤ N ∧ s.adc_sample_buffer.length = N := by
  induction h with
  | init => exact ⟨Nat.zero_le N, by simp [initialADCState]⟩
  | insert v _ ih => exact insertSample_inv N v _ ih.1 ih.2
  | handler bufs adc1buf _ ih =>
    rw [_ADCHandler_eq_insertSamples]
    exact insertSamples_inv N _ _ ih.1 ih.2
  | start _ ih => exact ⟨Nat.zero_le N, ih.2⟩

/-- C7: in every reachable state the write index satisfies
`0 ≤ write_index ≤ N` and the buffer has exactly N cells; and an insert in a
reachable state either performs no store at all (guard taken, buffer bitwise
unchanged) or stores exactly at position `write_index < N` — never outside
`[0, N)`. -/
theorem no_out_of_bounds_store (N : Nat) (s : MachineState)
    (h : Reachable N s) :
    s.sample_buffer_current_index ≤ N ∧
    s.adc_sample_buffer.length = N ∧
    ∀ v : Nat,
      (N ≤ s.sample_buffer_current_index ∧
        (insertSample N v s).adc_sample_buffer = s.adc_sample_buffer) ∨
      (s.sample_buffer_current_index < N ∧
        (insertSample N v s).adc_sample_buffer =
          s.adc_sample_buffer.set s.sample_buffer_current_index (v &&& 0x3ff)) := by
  obtain ⟨h1, h2⟩ := reachable_inv N s h
  refine ⟨h1, h2, ?_⟩
  intro v
  by_cases hc : N ≤ s.sample_buffer_current_index
  · exact Or.inl ⟨hc, by rw [insertSample_of_ge N v s hc]⟩
  · exact Or.inr ⟨by omega, by rw [insertSample_of_lt N v s (by omega)]⟩

/-- Witness for C7: the bound holds in the freshly initialised state with
N = 3 (reachability hypothesis discharged by `Reachable.init`). -/
theorem no_out_of_bounds_store_witness :
    (initialADCState 3).sample_buffer_current_index ≤ 3 ∧
    (initialADCState 3).adc_sample_buffer.length = 3 :=
  ⟨(no_out_of_bounds_store 3 (initialADCState 3) Reachable.init).1,
   (no_out_of_bounds_store 3 (initialADCState 3) Reachable.init).2.1⟩

/-- One insert preserves "every stored sample fits in 10 bits". -/
lemma insertSample_range (N v : Nat) (s : MachineState)
    (h : ∀ x ∈ s.adc_sample_buffer, x ≤ 1023) :
    ∀ x ∈ (insertSample N v s).adc_sample_buffer, x ≤ 1023 := by
  by_cases hc : N ≤ s.sample_buffer_current_index
  · rw [insertSample_of_ge N v s hc]; exact h
  · rw [insertSample_of_lt N v s (by omega)]
    intro x hx
    have hx' : x ∈ s.adc_sample_buffer.set
        s.sample_buffer_current_index (v &&& 0x3ff) := hx
    rcases List.mem_or_eq_of_mem_set hx' with h1 | h1
    · exact h x h1
    · subst h1; exact Nat.and_le_right

lemma insertSamples_range (N : Nat) (vs : List Nat) (s : MachineState)
    (h : ∀ x ∈ s.adc_sample_buffer, x ≤ 1023) :
    ∀ x ∈ (insertSamples N vs s).adc_sample_buffer, x ≤ 1023 := by
  induction vs generalizing s with
  | nil => exact h
  | cons v vs ih =>
    rw [insertSamples_cons]
    exact ih _ (insertSample_range N v s h)

/-- C8: every sample ever present in the sample buffer of a reachable state
lies in [0, 1023]: the 10-bit mask `sample &= 0x3ff` is applied to every
value before it is stored, and the buffer starts zeroed, so no entry ever
exceeds 1023. -/
theorem samples_are_10_bit (N : Nat) (s : MachineState) (h : Reachable N s) :
    ∀ x ∈ s.adc_sample_buffer, x ≤ 1023 := by
  induction h with
  | init =>
    intro x hx
    have : x = 0 := List.eq_of_mem_replicate hx
    omega
  | insert v _ ih => exact insertSample_range N v _ ih
  | handler bufs adc1buf _ ih =>
    rw [_ADCHandler_eq_insertSamples]
    exact insertSamples_range N _ _ ih
  | start _ ih => exact ih

/-- Witness for C8 in the freshly initialised state with N = 2, evaluated on
the concrete member 0 of the zeroed buffer. -/
theorem samples_are_10_bit_witness :
    0 ∈ (initialADCState 2).adc_sample_buffer ∧ (0 : Nat) ≤ 1023 :=
  ⟨by decide,
   samples_are_10_bit 2 (initialADCState 2) Reachable.init 0 (by decide)⟩

/-- Simulate a sequence of batch-completion signals: one `_ADCHandler`
invocation per element of `bs`, where the i-th element is the hardware bank
bit observed by the i-th invocation. -/
def runHandlers (N : Nat) (adc1buf : Nat → Nat) (bs : List Bool)
    (s : MachineState) : MachineState :=
  bs.foldl (fun st b => _ADCHandler N b adc1buf st) s

/-- With the synthetic register contents `ADC1BUFk = k % 8`, either bank
drains to the value sequence 0..7. -/
lemma drained_mod8 (bufs : Bool) :
    (drainedSlots (adcHandlerEvents bufs)).map (fun k => k % 8) =
      [0, 1, 2, 3, 4, 5, 6, 7] := by
  cases bufs <;> rfl

lemma list8_get (d : Nat) (hd : d < 8) :
    ((([0, 1, 2, 3, 4, 5, 6, 7] : List Nat))[d]?).map (fun v => v &&& 0x3ff) =
      some d := by
  interval_cases d <;> decide

/-- One batch-completion signal with synthetic values 0..7, landing entirely
in bounds: the index advances by 8, flags are untouched, and the written
window receives 0..7. -/
lemma adcHandler_step_fill (N : Nat) (b : Bool) (s : MachineState)
    (hle : s.sample_buffer_current_index + 8 ≤ N)
    (hlen : s.adc_sample_buffer.length = N) :
    (_ADCHandler N b (fun k => k % 8) s).sample_buffer_current_index =
        s.sample_buffer_current_index + 8 ∧
    (_ADCHandler N b (fun k => k % 8) s).sample_buffer_full =
        s.sample_buffer_full ∧
    (_ADCHandler N b (fun k => k % 8) s).timer3_on = s.timer3_on ∧
    (_ADCHandler N b (fun k => k % 8) s).adc_sample_buffer.length = N ∧
    (∀ j : Nat,
      (_ADCHandler N b (fun k => k % 8) s).adc_sample_buffer[j]? =
        if s.sample_buffer_current_index ≤ j ∧
            j < s.sample_buffer_current_index + 8 then
          some (j - s.sample_buffer_current_index)
        else s.adc_sample_buffer[j]?) := by
  obtain ⟨g1, g2, g3, g4, g5, g6⟩ :=
    insertSamples_inbounds N [0, 1, 2, 3, 4, 5, 6, 7] s hle hlen
  have hlen8 : ([0, 1, 2, 3, 4, 5, 6, 7] : List Nat).length = 8 := rfl
  rw [hlen8] at g1 g6
  rw [_ADCHandler_eq_insertSamples, drained_mod8]
  refine ⟨?_, g2, g3, g5, ?_⟩
  · show (insertSamples N [0, 1, 2, 3, 4, 5, 6, 7] s).sample_buffer_current_index =
      s.sample_buffer_current_index + 8
    rw [g1]
  · intro j
    show (insertSamples N [0, 1, 2, 3, 4, 5, 6, 7] s).adc_sample_buffer[j]? = _
    rw [g6 j]
    by_cases hw : s.sample_buffer_current_index ≤ j ∧
        j < s.sample_buffer_current_index + 8
    · rw [if_pos hw, if_pos hw]
      exact list8_get (j - s.sample_buffer_current_index) (by omega)
    · rw [if_neg hw, if_neg hw]

/-- Running k batch-completion signals with synthetic values 0..7 from a
state whose index is a multiple of 8, with room for all 8·k values: the index
advances by 8·k, flags are untouched, the written window holds the repeating
pattern j % 8, and everything below the old index is untouched. -/
lemma runHandlers_fill (N : Nat) (bs : List Bool) (s : MachineState)
    (hidx8 : s.sample_buffer_current_index % 8 = 0)
    (hle : s.sample_buffer_current_index + 8 * bs.length ≤ N)
    (hlen : s.adc_sample_buffer.length = N) :
    (runHandlers N (fun k => k % 8) bs s).sample_buffer_current_index =
        s.sample_buffer_current_index + 8 * bs.length ∧
    (runHandlers N (fun k => k % 8) bs s).sample_buffer_full =
        s.sample_buffer_full ∧
    (runHandlers N (fun k => k % 8) bs s).timer3_on = s.timer3_on ∧
    (runHandlers N (fun k => k % 8) bs s).adc_sample_buffer.length = N ∧
    (∀ j : Nat,
      (runHandlers N (fun k => k % 8) bs s).adc_sample_buffer[j]? =
        if s.sample_buffer_current_index ≤ j ∧
            j < s.sample_buffer_current_index + 8 * bs.length then
          some (j % 8)
        else s.adc_sample_buffer[j]?) := by
  induction bs generalizing s with
  | nil =>
    refine ⟨?_, rfl, rfl, hlen, ?_⟩
    · show s.sample_buffer_current_index =
        s.sample_buffer_current_index + 8 * ([] : List Bool).length
      simp
    · intro j
      rw [if_neg (by simp)]
      rfl
  | cons b bs ih =>
    obtain ⟨e1, e2, e3, e4, e5⟩ := adcHandler_step_fill N b s
      (by simp only [List.length_cons] at hle; omega) hlen
    obtain ⟨k1, k2, k3, k4, k5⟩ := ih (_ADCHandler N b (fun k => k % 8) s)
      (by rw [e1]; omega)
      (by rw [e1]; simp only [List.length_cons] at hle; omega)
      e4
    rw [e1] at k1 k5
    refine ⟨?_, ?_, ?_, k4, ?_⟩
    · show (runHandlers N (fun k => k % 8) bs
        (_ADCHandler N b (fun k => k % 8) s)).sample_buffer_current_index = _
      rw [k1]
      simp only [List.length_cons]
      ring
    · show (runHandlers N (fun k => k % 8) bs
        (_ADCHandler N b (fun k => k % 8) s)).sample_buffer_full = _
      rw [k2, e2]
    · show (runHandlers N (fun k => k % 8) bs
        (_ADCHandler N b (fun k => k % 8) s)).timer3_on = _
      rw [k3, e3]
    · intro j
      show (runHandlers N (fun k => k % 8) bs
        (_ADCHandler N b (fun k => k % 8) s)).adc_sample_buffer[j]? = _
      rw [k5 j, e5 j]
      rcases Nat.lt_or_ge j s.sample_buffer_current_index with hj | hj
      · rw [if_neg (by omega), if_neg (by omega),
          if_neg (by simp only [List.length_cons]; omega)]
      · rcases Nat.lt_or_ge j (s.sample_buffer_current_index + 8) with hj2 | hj2
        · rw [if_neg (by omega), if_pos (by omega),
            if_pos (by simp only [List.length_cons]; omega)]
          congr 1
          omega
        · rcases Nat.lt_or_ge j
            (s.sample_buffer_current_index + 8 + 8 * bs.length) with hj3 | hj3
          · rw [if_pos (by omega),
              if_pos (by simp only [List.length_cons]; omega)]
          · rw [if_neg (by omega), if_neg (by omega),
              if_neg (by simp only [List.length_cons]; omega)]

/-- C4 counterexample: with N = 8 (so N/8 = 1), after configure, start and
exactly one batch-completion signal draining the synthetic values 0..7, the
samples are as expected but `full` is still false and the Trigger Source is
still armed — the claimed final state (`full == true`, trigger disarmed)
does not hold after exactly N/8 signals. -/
theorem nominal_fill_counterexample :
    (_ADCHandler 8 false (fun k => k % 8)
        (beginFillingADCBuffer (initialADCState 8))).adc_sample_buffer =
      [0, 1, 2, 3, 4, 5, 6, 7] ∧
    (_ADCHandler 8 false (fun k => k % 8)
        (beginFillingADCBuffer (initialADCState 8))).sample_buffer_full = false ∧
    (_ADCHandler 8 false (fun k => k % 8)
        (beginFillingADCBuffer (initialADCState 8))).timer3_on = true := by
  decide

/-- C4 (amended): with N a multiple of 8 (N = 8·k for k signals), after
configure, start and exactly N/8 batch-completion signals each draining the
synthetic values 0..7 (mod 1024) in order, the buffer holds the repeating
pattern 0..7 truncated to N entries and `write_index = N`, but `full` is
still false and the Trigger Source still armed; it is the next, (N/8 + 1)-th,
signal that sets `full` and disarms the Trigger Source, leaving the samples
and the write index unchanged (and clearing the interrupt flag). -/
theorem nominal_fill_amended (bs : List Bool) (b : Bool) :
    (runHandlers (8 * bs.length) (fun k => k % 8) bs
        (beginFillingADCBuffer
          (initialADCState (8 * bs.length)))).sample_buffer_current_index =
      8 * bs.length ∧
    (runHandlers (8 * bs.length) (fun k => k % 8) bs
        (beginFillingADCBuffer
          (initialADCState (8 * bs.length)))).sample_buffer_full = false ∧
    (runHandlers (8 * bs.length) (fun k => k % 8) bs
        (beginFillingADCBuffer
          (initialADCState (8 * bs.length)))).timer3_on = true ∧
    (∀ j : Nat, j < 8 * bs.length →
      (runHandlers (8 * bs.length) (fun k => k % 8) bs
          (beginFillingADCBuffer
            (initialADCState (8 * bs.length)))).adc_sample_buffer[j]? =
        some (j % 8)) ∧
    _ADCHandler (8 * bs.length) b (fun k => k % 8)
        (runHandlers (8 * bs.length) (fun k => k % 8) bs
          (beginFillingADCBuffer (initialADCState (8 * bs.length)))) =
      { runHandlers (8 * bs.length) (fun k => k % 8) bs
          (beginFillingADCBuffer (initialADCState (8 * bs.length))) with
          sample_buffer_full := true, timer3_on := false, ad1if := false } := by
  have hidx0 : (beginFillingADCBuffer
      (initialADCState (8 * bs.length))).sample_buffer_current_index = 0 := rfl
  obtain ⟨f1, f2, f3, f4, f5⟩ :=
    runHandlers_fill (8 * bs.length) bs
      (beginFillingADCBuffer (initialADCState (8 * bs.length)))
      (by rw [hidx0])
      (by rw [hidx0]; omega)
      (by show (List.replicate (8 * bs.length) 0).length = 8 * bs.length
          simp)
  rw [hidx0] at f1 f5
  have hfull0 : (beginFillingADCBuffer
      (initialADCState (8 * bs.length))).sample_buffer_full = false := rfl
  have ht0 : (beginFillingADCBuffer
      (initialADCState (8 * bs.length))).timer3_on = true := rfl
  rw [hfull0] at f2
  rw [ht0] at f3
  have hidxN : (runHandlers (8 * bs.length) (fun k => k % 8) bs
      (beginFillingADCBuffer
        (initialADCState (8 * bs.length)))).sample_buffer_current_index =
      8 * bs.length := by rw [f1]; omega
  refine ⟨hidxN, f2, f3, ?_, ?_⟩
  · intro j hj
    rw [f5 j, if_pos (by omega)]
  · rw [_ADCHandler_eq_insertSamples,
      insertSamples_of_ge (8 * bs.length) _ _ (by rw [hidxN])
        (drained_ne_nil b (fun k => k % 8))]

/-- C5: overrun discard with N = 10 (not a multiple of 8).  After a start and
2 full batch-completion signals delivering 16 values, exactly the first 10
drained values (10-bit masked) are stored, in drain order; the remaining 6
are discarded; `full` is true at the end, the Trigger Source is disarmed,
the write index is exactly 10, and the buffer is exactly the 10-entry list —
no write outside it ever happens. -/
theorem overrun_discard (b1 b2 : Bool) (f1 f2 : Nat → Nat) :
    (_ADCHandler 10 b2 f2 (_ADCHandler 10 b1 f1
        (beginFillingADCBuffer
          (initialADCState 10)))).sample_buffer_current_index = 10 ∧
    (_ADCHandler 10 b2 f2 (_ADCHandler 10 b1 f1
        (beginFillingADCBuffer
          (initialADCState 10)))).sample_buffer_full = true ∧
    (_ADCHandler 10 b2 f2 (_ADCHandler 10 b1 f1
        (beginFillingADCBuffer
          (initialADCState 10)))).timer3_on = false ∧
    (_ADCHandler 10 b2 f2 (_ADCHandler 10 b1 f1
        (beginFillingADCBuffer
          (initialADCState 10)))).adc_sample_buffer =
      (((drainedSlots (adcHandlerEvents b1)).map f1 ++
          (drainedSlots (adcHandlerEvents b2)).map f2).take 10).map
        (fun v => v &&& 0x3ff) := by
  have hcomb : _ADCHandler 10 b2 f2 (_ADCHandler 10 b1 f1
      (beginFillingADCBuffer (initialADCState 10))) =
      { insertSamples 10
          ((drainedSlots (adcHandlerEvents b1)).map f1 ++
            (drainedSlots (adcHandlerEvents b2)).map f2)
          (beginFillingADCBuffer (initialADCState 10)) with
          ad1if := false } := by
    rw [_ADCHandler_eq_insertSamples 10 b2, _ADCHandler_eq_insertSamples 10 b1,
      insertSamples_ad1if, insertSamples_append]
  have hlen12 : ((drainedSlots (adcHandlerEvents b1)).map f1 ++
      (drainedSlots (adcHandlerEvents b2)).map f2).length = 16 := by
    rw [List.length_append, drained_length, drained_length]
  have htake : (((drainedSlots (adcHandlerEvents b1)).map f1 ++
      (drainedSlots (adcHandlerEvents b2)).map f2).take 10).length = 10 := by
    rw [List.length_take, hlen12]
    omega
  have has0 : (beginFillingADCBuffer
      (initialADCState 10)).sample_buffer_current_index = 0 := rfl
  obtain ⟨g1, g2, g3, g4, g5, g6⟩ :=
    insertSamples_inbounds 10
      (((drainedSlots (adcHandlerEvents b1)).map f1 ++
        (drainedSlots (adcHandlerEvents b2)).map f2).take 10)
      (beginFillingADCBuffer (initialADCState 10))
      (by rw [has0, htake]) rfl
  rw [has0, htake] at g1 g6
  have hdropnil : ((drainedSlots (adcHandlerEvents b1)).map f1 ++
      (drainedSlots (adcHandlerEvents b2)).map f2).drop 10 ≠ [] := by
    intro hnil
    rw [List.drop_eq_nil_iff] at hnil
    rw [hlen12] at hnil
    omega
  have hsat := insertSamples_of_ge 10
    (((drainedSlots (adcHandlerEvents b1)).map f1 ++
      (drainedSlots (adcHandlerEvents b2)).map f2).drop 10)
    (insertSamples 10
      (((drainedSlots (adcHandlerEvents b1)).map f1 ++
        (drainedSlots (adcHandlerEvents b2)).map f2).take 10)
      (beginFillingADCBuffer (initialADCState 10)))
    (by rw [g1]) hdropnil
  have hsplit : insertSamples 10
      ((drainedSlots (adcHandlerEvents b1)).map f1 ++
        (drainedSlots (adcHandlerEvents b2)).map f2)
      (beginFillingADCBuffer (initialADCState 10)) =
      insertSamples 10
        (((drainedSlots (adcHandlerEvents b1)).map f1 ++
          (drainedSlots (adcHandlerEvents b2)).map f2).drop 10)
        (insertSamples 10
          (((drainedSlots (adcHandlerEvents b1)).map f1 ++
            (drainedSlots (adcHandlerEvents b2)).map f2).take 10)
          (beginFillingADCBuffer (initialADCState 10))) := by
    rw [← insertSamples_append, List.take_append_drop]
  have hfinal : _ADCHandler 10 b2 f2 (_ADCHandler 10 b1 f1
      (beginFillingADCBuffer (initialADCState 10))) =
      { insertSamples 10
          (((drainedSlots (adcHandlerEvents b1)).map f1 ++
            (drainedSlots (adcHandlerEvents b2)).map f2).take 10)
          (beginFillingADCBuffer (initialADCState 10)) with
          sample_buffer_full := true, timer3_on := false, ad1if := false } := by
    rw [hcomb, hsplit, hsat]
  have hidx : (_ADCHandler 10 b2 f2 (_ADCHandler 10 b1 f1
      (beginFillingADCBuffer
        (initialADCState 10)))).sample_buffer_current_index =
      (insertSamples 10
        (((drainedSlots (adcHandlerEvents b1)).map f1 ++
          (drainedSlots (adcHandlerEvents b2)).map f2).take 10)
        (beginFillingADCBuffer
          (initialADCState 10))).sample_buffer_current_index := by
    rw [hfinal]
  have hbuf : (_ADCHandler 10 b2 f2 (_ADCHandler 10 b1 f1
      (beginFillingADCBuffer
        (initialADCState 10)))).adc_sample_buffer =
      (insertSamples 10
        (((drainedSlots (adcHandlerEvents b1)).map f1 ++
          (drainedSlots (adcHandlerEvents b2)).map f2).take 10)
        (beginFillingADCBuffer (initialADCState 10))).adc_sample_buffer := by
    rw [hfinal]
  refine ⟨?_, ?_, ?_, ?_⟩
  · rw [hidx, g1]
  · rw [hfinal]
  · rw [hfinal]
  · rw [hbuf]
    apply List.ext_getElem?
    intro j
    rw [g6 j, List.getElem?_map]
    by_cases hj : j < 10
    · rw [if_pos ⟨Nat.zero_le j, by omega⟩, Nat.sub_zero]
    · rw [if_neg (by omega)]
      show (List.replicate 10 (0 : Nat))[j]? = _
      rw [List.getElem?_eq_none (by simpa using by omega),
        List.getElem?_eq_none (le_of_eq_of_le htake (by omega))]
      rfl
